import Mathlib

/-!
# Verification of zeit-go against its specification

Shallow embedding of the `zeit` Go package: the `Zeit` value type
(`zeit.go`), the `Duration` span type (`duration.go`) and the billing
cycle generator (`billing.go`).

An absolute instant is modelled as an integer count of nanoseconds since
the Unix epoch (the resolution of Go's `time.Time`); every instant stored
in a `Zeit` is UTC-normalized, and every calendar computation in the
package happens on the UTC instant, so civil fields are extracted with
the proleptic Gregorian calendar in UTC (UTC has no offset transitions,
so a calendar day is exactly 86400 seconds).

`/` and `%` on `Int` are Euclidean division and remainder, which for the
positive divisors used below coincide with the floor division that Go's
`time.Date` normalization performs (and with Go's truncated `/` on the
nonnegative operands that occur in `duration.go`).
-/

/-- Nanoseconds per second: the resolution of Go's `time.Time`. -/
def nsPerSec : Int := 1000000000

/-- Nanoseconds per calendar day (UTC days have no transitions). -/
def nsPerDay : Int := 86400000000000

/-- Days since 1970-01-01 of the civil (proleptic Gregorian) date `(y, m, d)`.
Models the day-number computation of Go's `time.Date`: for months in `[1, 12]`
this is the standard Gregorian day number (via 400-year eras of March-based
years), and the day argument `d` enters linearly, so day overflow (such as
February 31) rolls over into the following months exactly as Go's `Date`
normalization does. -/
def daysFromCivil (y m d : Int) : Int :=
  let y2 := if m ≤ 2 then y - 1 else y
  let era := y2 / 400
  let yoe := y2 - era * 400
  let mp := (m + 9) % 12
  let doy := (153 * mp + 2) / 5 + d - 1
  let doe := yoe * 365 + yoe / 4 - yoe / 100 + doy
  era * 146097 + doe - 719468

/-- Civil (proleptic Gregorian) date `(year, month, day)` of the day number
`z` (days since 1970-01-01).  Models the calendar field extraction (`Year`,
`Month`, `Day`) that Go's `time.Time` performs on a UTC instant: the day
number is decomposed into a 400-year era, a century, a 4-year group and a
year of that group (all March-based), then the day of the March-based year
is split into month and day of month. -/
def civilFromDays (z : Int) : Int × Int × Int :=
  let era := (z + 719468) / 146097
  let doe := z + 719468 - era * 146097
  let c := min 3 (doe / 36524)
  let dic := doe - 36524 * c
  let g := dic / 1461
  let dig := dic - 1461 * g
  let yig := min 3 (dig / 365)
  let doy := dig - 365 * yig
  let yoe := 100 * c + 4 * g + yig
  let y := yoe + era * 400
  let mp := (5 * doy + 2) / 153
  let d := doy - (153 * mp + 2) / 5 + 1
  let m := if mp < 10 then mp + 3 else mp - 9
  (if m ≤ 2 then y + 1 else y, m, d)

/-- The extracted civil fields are always a plausible date (month in `[1, 12]`,
day in `[1, 31]`), and recomposing them with `daysFromCivil` gives the day
number back: the two conversions are mutually inverse. -/
theorem civilFromDays_spec (z : Int) :
    (1 ≤ (civilFromDays z).2.1 ∧ (civilFromDays z).2.1 ≤ 12 ∧
     1 ≤ (civilFromDays z).2.2 ∧ (civilFromDays z).2.2 ≤ 31) ∧
    daysFromCivil (civilFromDays z).1 (civilFromDays z).2.1 (civilFromDays z).2.2 = z := by
  simp only [civilFromDays]
  set era := (z + 719468) / 146097 with hera
  set doe := z + 719468 - era * 146097 with hdoe
  set c := min 3 (doe / 36524) with hc
  set dic := doe - 36524 * c with hdic
  set g := dic / 1461 with hg
  set dig := dic - 1461 * g with hdig
  set yig := min 3 (dig / 365) with hyig
  set doy := dig - 365 * yig with hdoy
  set yoe := 100 * c + 4 * g + yig with hyoe
  set y := yoe + era * 400 with hy
  set mp := (5 * doy + 2) / 153 with hmp
  set dd := doy - (153 * mp + 2) / 5 + 1 with hdd
  have hdoe2 : 0 ≤ doe ∧ doe < 146097 := by omega
  have hc2 : 0 ≤ c ∧ c ≤ 3 := by omega
  have hdic2 : 0 ≤ dic ∧ dic ≤ 36524 := by omega
  have hg2 : 0 ≤ g ∧ g ≤ 24 := by omega
  have hdig2 : 0 ≤ dig ∧ dig ≤ 1460 := by omega
  have hyig2 : 0 ≤ yig ∧ yig ≤ 3 := by omega
  have hdoy2 : 0 ≤ doy ∧ doy ≤ 365 := by omega
  have hyoe2 : 0 ≤ yoe ∧ yoe ≤ 399 := by omega
  have h4 : yoe / 4 = 25 * c + g := by omega
  have h100 : yoe / 100 = c := by omega
  have hrecomp : 365 * yoe + yoe / 4 - yoe / 100 + doy = doe := by omega
  have hmp2 : 0 ≤ mp ∧ mp ≤ 11 := by omega
  have hdd2 : 1 ≤ dd ∧ dd ≤ 31 := by omega
  have hf : y / 400 = era := by omega
  have hf2 : y - y / 400 * 400 = yoe := by omega
  have hf4 : (y - y / 400 * 400) / 4 = 25 * c + g := by omega
  have hf100 : (y - y / 400 * 400) / 100 = c := by omega
  by_cases h10 : mp < 10
  · rw [if_pos h10]
    rw [if_neg (by omega : ¬ (mp + 3 ≤ 2))]
    refine ⟨⟨by omega, by omega, by omega, by omega⟩, ?_⟩
    simp only [daysFromCivil]
    rw [if_neg (by omega : ¬ (mp + 3 ≤ 2))]
    have hmp12 : (mp + 3 + 9) % 12 = mp := by omega
    rw [hmp12]
    omega
  · rw [if_neg h10]
    rw [if_pos (by omega : mp - 9 ≤ 2)]
    refine ⟨⟨by omega, by omega, by omega, by omega⟩, ?_⟩
    simp only [daysFromCivil]
    rw [if_pos (by omega : mp - 9 ≤ 2)]
    have hmp12 : (mp - 9 + 9) % 12 = mp := by omega
    rw [hmp12]
    have hg1 : y + 1 - 1 = y := by omega
    rw [hg1]
    omega

/-- Spot checks of the civil conversions across eras and boundaries. -/
example : civilFromDays 0 = (1970, 1, 1) := by decide
example : civilFromDays 19753 = (2024, 1, 31) := by decide
example : civilFromDays 11016 = (2000, 2, 29) := by decide
example : civilFromDays (-25509) = (1900, 2, 28) := by decide
example : civilFromDays (-25508) = (1900, 3, 1) := by decide
example : civilFromDays (-1) = (1969, 12, 31) := by decide
example : daysFromCivil 2024 2 31 = daysFromCivil 2024 3 2 := by decide
example : daysFromCivil 1970 1 1 = 0 := by decide

/-- `daysFromCivil` is linear in its day argument (Go's `Date` computes the
day number of the first of the month and adds `d - 1` days). -/
theorem daysFromCivil_day_add (y m d k : Int) :
    daysFromCivil y m (d + k) = daysFromCivil y m d + k := by
  simp only [daysFromCivil]
  split <;> omega

/-! ## Instants and Go `time` operations on UTC instants -/

/-- Day number (days since 1970-01-01, floor) of an instant given in
nanoseconds since the Unix epoch; Go stores a time as whole seconds plus a
nanosecond in `[0, 1e9)`, so field extraction uses the floor day. -/
def dayNumber (t : Int) : Int := t / nsPerDay

/-- Nanoseconds elapsed since midnight UTC of the instant's day. -/
def clockNs (t : Int) : Int := t % nsPerDay

/-- Civil UTC date of an instant. -/
def civilOf (t : Int) : Int × Int × Int := civilFromDays (dayNumber t)

/-- Go `Year()` on a UTC time. -/
def yearOf (t : Int) : Int := (civilOf t).1

/-- Go `Month()` on a UTC time. -/
def monthOf (t : Int) : Int := (civilOf t).2.1

/-- Go `Day()` on a UTC time. -/
def dayOf (t : Int) : Int := (civilOf t).2.2

/-- Go `Weekday()` on a UTC time: Sunday = 0 … Saturday = 6;
1970-01-01 (day number 0) was a Thursday (= 4). -/
def weekdayOf (t : Int) : Int := (dayNumber t + 4) % 7

/-- Models Go `time.Date(y, m, d, hh, mi, ss, ns, time.UTC)`: the month is
normalized into the year (floor-style, as Go's `norm`), then the civil date
is turned into a day number (day overflow rolling over via the linearity of
`daysFromCivil` in `d`), and the clock fields are added; Go normalizes
out-of-range clock fields into the day count, which preserves this linear
sum. -/
def goDate (y m d hh mi ss ns : Int) : Int :=
  let y2 := y + (m - 1) / 12
  let m2 := (m - 1) % 12 + 1
  daysFromCivil y2 m2 d * nsPerDay + hh * 3600 * nsPerSec + mi * 60 * nsPerSec
    + ss * nsPerSec + ns

/-- Models Go `t.AddDate(years, months, days)` on a UTC time: extract the
civil fields and clock of `t`, add the deltas and renormalize via `Date`.
The whole clock is passed as nanoseconds, which `goDate` adds linearly just
as Go's `Date` does for in-range clock fields. -/
def addDate (t years months days : Int) : Int :=
  goDate (yearOf t + years) (monthOf t + months) (dayOf t + days) 0 0 0 (clockNs t)

theorem nsPerDay_pos : (0 : Int) < nsPerDay := by decide

/-- Extraction/recomposition on instants: rebuilding midnight of an
instant's civil date gives the instant's day number. -/
theorem daysFromCivil_civilOf (t : Int) :
    daysFromCivil (yearOf t) (monthOf t) (dayOf t) = dayNumber t :=
  (civilFromDays_spec (dayNumber t)).2

/-- The extracted month is always in `[1, 12]`. -/
theorem monthOf_range (t : Int) : 1 ≤ monthOf t ∧ monthOf t ≤ 12 :=
  ⟨((civilFromDays_spec (dayNumber t)).1).1, ((civilFromDays_spec (dayNumber t)).1).2.1⟩

/-- `AddDate(0, 0, k)` on a UTC instant is an exact shift by `k` calendar
days of 86400 seconds (UTC has no offset transitions). -/
theorem addDate_days (t k : Int) : addDate t 0 0 k = t + k * nsPerDay := by
  have hm := monthOf_range t
  have hrt := daysFromCivil_civilOf t
  simp only [addDate, goDate]
  have h1 : monthOf t + 0 - 1 = monthOf t - 1 := by omega
  rw [h1]
  have h2 : (monthOf t - 1) / 12 = 0 := by omega
  have h3 : (monthOf t - 1) % 12 + 1 = monthOf t := by omega
  rw [h2, h3]
  have h4 : yearOf t + 0 + 0 = yearOf t := by omega
  rw [h4]
  rw [daysFromCivil_day_add, hrt]
  have h5 : t = dayNumber t * nsPerDay + clockNs t := by
    simp only [dayNumber, clockNs, nsPerDay]
    omega
  simp only [nsPerSec, nsPerDay] at *
  omega

/-- Shifting by whole days shifts the day number by the same amount. -/
theorem dayNumber_add_days (t k : Int) : dayNumber (t + k * nsPerDay) = dayNumber t + k := by
  simp only [dayNumber, nsPerDay]
  omega

/-- Weekday of a whole-day shift, reduced modulo 7. -/
theorem weekdayOf_add_days (t k : Int) :
    weekdayOf (t + k * nsPerDay) = (weekdayOf t + k) % 7 := by
  simp only [weekdayOf, dayNumber_add_days]
  omega

/-- The weekday is always in `[0, 6]`. -/
theorem weekdayOf_range (t : Int) : 0 ≤ weekdayOf t ∧ weekdayOf t ≤ 6 := by
  simp only [weekdayOf]
  omega

/-! ## The Zeit value type (`zeit.go`)

A `*time.Location` is an opaque zone-rules handle; no operation under
verification ever consults the zone rules (all arithmetic happens on the
UTC instant), so locations are modelled as plain labels, with Go's `nil`
modelled as `Option.none` at the entry points that accept it. -/

/-- Zone label standing for Go's `time.UTC`. -/
def timeUTC : String := "UTC"

/-- Go struct `Zeit`: a moment in time with timezone awareness; `instant`
is the UTC-normalized absolute time (nanoseconds since the Unix epoch) and
`location` the display timezone. -/
structure Zeit where
  instant : Int
  location : String
deriving DecidableEq, Repr

/-- Go `New(t, loc)`: defaults a nil location to UTC and stores `t.UTC()`
(the same absolute instant, UTC-normalized). -/
def New (t : Int) (loc : Option String) : Zeit :=
  { instant := t, location := loc.getD timeUTC }

/-- Go `FromDatabase(timestamp, loc)`: `New(time.Unix(timestamp, 0), loc)`. -/
def FromDatabase (timestamp : Int) (loc : Option String) : Zeit :=
  New (timestamp * nsPerSec) loc

/-- Go `(z *Zeit).ToDatabase()`: `z.instant.Unix()`, the whole-second Unix
value (Go stores seconds plus a nanosecond in `[0, 1e9)`, so `Unix()` is the
floor of the nanosecond count divided by 1e9). -/
def Zeit.ToDatabase (z : Zeit) : Int := z.instant / nsPerSec

/-- Go `(z *Zeit).Unix()`. -/
def Zeit.Unix (z : Zeit) : Int := z.instant / nsPerSec

/-- Go `(z *Zeit).Add(d)`: exact elapsed-duration addition. -/
def Zeit.Add (z : Zeit) (d : Int) : Zeit := New (z.instant + d) (some z.location)

/-- Go `(z *Zeit).AddDays(days)`: `New(z.instant.AddDate(0, 0, days), z.location)`. -/
def Zeit.AddDays (z : Zeit) (days : Int) : Zeit :=
  New (addDate z.instant 0 0 days) (some z.location)

/-- Go `(z *Zeit).Before(other)`. -/
def Zeit.Before (z other : Zeit) : Bool := z.instant < other.instant

/-- Go `(z *Zeit).After(other)`. -/
def Zeit.After (z other : Zeit) : Bool := other.instant < z.instant

/-- Go `(z *Zeit).Equal(other)`: same absolute instant, zones ignored. -/
def Zeit.Equal (z other : Zeit) : Bool := z.instant == other.instant

/-- Go `(z *Zeit).In(loc)`: same instant, new display zone, nil defaulting
to UTC. -/
def Zeit.In (z : Zeit) (loc : Option String) : Zeit :=
  { instant := z.instant, location := loc.getD timeUTC }

/-- The weekday test in `AddBusinessDays`: Go's
`weekday != time.Saturday && weekday != time.Sunday` (Saturday = 6,
Sunday = 0). -/
def isBusinessDay (t : Int) : Bool := weekdayOf t != 6 && weekdayOf t != 0

/-- One pass of the inner stepping of Go's `AddBusinessDays` loop: step one
calendar day in direction `dir`, repeating while the day reached is a
weekend day.  Go's loop carries no fuel (it runs until a Monday–Friday day
is reached); the fuel is an artifact of the embedding, and a fuel of 7 is
never exhausted because the loop body runs at most three times (proved
below). -/
def stepToBusiness : Nat → Int → Int → Int
  | 0, t, _ => t
  | fuel + 1, t, dir =>
    let t2 := addDate t 0 0 dir
    if isBusinessDay t2 then t2 else stepToBusiness fuel t2 dir

/-- Go's `AddBusinessDays` loop: `days` times, advance to the next
Monday–Friday day in direction `dir`. -/
def addBusinessDaysLoop (t : Int) (dir : Int) : Nat → Int
  | 0 => t
  | n + 1 => addBusinessDaysLoop (stepToBusiness 7 t dir) dir n

/-- The smallest `int64` value: Go's `math.MinInt` on 64-bit targets. -/
def minInt64 : Int := -9223372036854775808

/-- Two's-complement wrap into the `int64` range: the value of a Go
`int64` arithmetic result.  Go integer overflow is defined to wrap, so
`-x` at `x = math.MinInt` yields `math.MinInt` again. -/
def int64Wrap (x : Int) : Int :=
  (x + 9223372036854775808) % 18446744073709551616 - 9223372036854775808

/-- Go `(z *Zeit).AddBusinessDays(days)`: negative input flips the
direction and negates the count with Go's wrapping `int` negation
(`days = -days`), then the loop counts that many Monday–Friday steps; a
loop bound that is still negative after the wrap (only `math.MinInt`)
runs zero iterations, which `Int.toNat` models by clamping at zero. -/
def Zeit.AddBusinessDays (z : Zeit) (days : Int) : Zeit :=
  let dir : Int := if days < 0 then -1 else 1
  let days2 : Int := if days < 0 then int64Wrap (-days) else days
  New (addBusinessDaysLoop z.instant dir days2.toNat) (some z.location)

/-- The value delivered by a SQL driver to `Scan`: Go's `any` restricted to
the cases the type switch distinguishes.  A finite `float64` value is an
exact rational number; Go's `int64(v)` conversion truncates it toward
zero. -/
inductive SqlSrc where
  | sInt64 (v : Int)
  | sFloat64 (v : Rat)
  | sNull
  | sOther (typeName : String)
deriving DecidableEq

/-- Truncation toward zero of a rational: Go's `int64(v)` conversion of an
in-range `float64`. -/
def ratTrunc (q : Rat) : Int := Int.tdiv q.num q.den

/-- Go `(z *Zeit).Scan(src)`: the receiver is mutated only in the `int64`
and `float64` cases; the `nil` and default cases return an error without
touching the receiver.  Modelled by state passing: the result is the final
receiver state paired with the error (`none` = success). -/
def Zeit.Scan (z : Zeit) (src : SqlSrc) : Zeit × Option String :=
  match src with
  | .sInt64 v => ({ instant := v * nsPerSec, location := timeUTC }, none)
  | .sFloat64 v => ({ instant := ratTrunc v * nsPerSec, location := timeUTC }, none)
  | .sNull => (z, some "zeit: cannot scan nil value")
  | .sOther typeName => (z, some ("zeit: cannot scan " ++ typeName ++ " into Zeit"))

/-- Go `(z *Zeit).Value()`: always succeeds with the Unix seconds. -/
def Zeit.Value (z : Zeit) : Int := z.instant / nsPerSec

/-! ## The Duration span type (`duration.go`) -/

/-- Go struct `Duration`: the distance between two `Zeit` instances.
The Go field `end` is a reserved word in Lean and is named `endz` here. -/
structure Duration where
  start : Zeit
  endz : Zeit

/-- Go `(z *Zeit).Until(other)`. -/
def Zeit.Until (z other : Zeit) : Duration := { start := z, endz := other }

/-- Go `NewDuration(start, end)`. -/
def NewDuration (start endz : Zeit) : Duration := { start := start, endz := endz }

/-- Go's `time.Duration` saturation bounds (`maxDuration`/`minDuration`,
about ±292 years in nanoseconds). -/
def maxDuration : Int := 9223372036854775807

/-- The negative `time.Duration` saturation bound. -/
def minDuration : Int := -9223372036854775808

/-- Models Go `t.Sub(u)` on `time.Time`: the exact difference in
nanoseconds, saturated to `[minDuration, maxDuration]` when it does not
fit in an `int64`. -/
def goSub (t u : Int) : Int := max (min (t - u) maxDuration) minDuration

/-- Go `(d *Duration).raw()`: `end.Sub(start)` (saturating), negated with
Go's wrapping `int64` negation when negative. -/
def Duration.raw (d : Duration) : Int :=
  let diff := goSub d.endz.instant d.start.instant
  if diff < 0 then int64Wrap (-diff) else diff

/-- Go `(d *Duration).ordered()`: the two instants with the earlier first
(`if s.After(e) { return e, s }`). -/
def Duration.ordered (d : Duration) : Int × Int :=
  let s := d.start.instant
  let e := d.endz.instant
  if e < s then (e, s) else (s, e)

/-- Go `(d *Duration).Months()`: year/month field difference of the ordered
instants, minus one if the end's day-of-month is below the start's, clamped
at zero. -/
def Duration.Months (d : Duration) : Int :=
  let se := d.ordered
  let years := yearOf se.2 - yearOf se.1
  let months := monthOf se.2 - monthOf se.1
  let total := years * 12 + months
  let total2 := if dayOf se.2 < dayOf se.1 then total - 1 else total
  if total2 < 0 then 0 else total2

/-- The remainder loop of Go's `BusinessDays`: for `i` in
`[0, remaining)`, count `startDate.AddDate(0, 0, fullWeeks*7+i)` when its
weekday is neither Saturday nor Sunday. -/
def businessRemainder (startDate fullWeeks : Int) : Nat → Int
  | 0 => 0
  | i + 1 => businessRemainder startDate fullWeeks i +
      (if isBusinessDay (addDate startDate 0 0 (fullWeeks * 7 + i)) then 1 else 0)

/-- Go `(d *Duration).BusinessDays()`: normalize both ordered instants to
midnight UTC dates, return 0 unless start is strictly before end, then
count 5 per full 7-day week plus the individually tested remainder days.
Go computes the whole-day count as `int(endDate.Sub(startDate).Hours()/24)`;
`Sub` saturates at `maxDuration`, and the float quotient of the saturated
difference truncates to the whole number of days it contains (exact for
the midnight-aligned, hence day-multiple, unsaturated differences, and
`⌊maxDuration / nsPerDay⌋ = 106751` in the saturated case), which is the
value modelled here. -/
def Duration.BusinessDays (d : Duration) : Int :=
  let se := d.ordered
  let startDate := goDate (yearOf se.1) (monthOf se.1) (dayOf se.1) 0 0 0 0
  let endDate := goDate (yearOf se.2) (monthOf se.2) (dayOf se.2) 0 0 0 0
  if startDate < endDate then
    let totalDays := goSub endDate startDate / nsPerDay
    let fullWeeks := totalDays / 7
    let remaining := totalDays % 7
    fullWeeks * 5 + businessRemainder startDate fullWeeks remaining.toNat
  else 0

/-! ## Billing cycles (`billing.go`) -/

/-- Go `BillingInterval` is an integer enumeration; unknown values fall
back to the daily step. -/
abbrev BillingInterval := Int

/-- Daily billing interval. -/
def Daily : BillingInterval := 0

/-- Weekly billing interval. -/
def Weekly : BillingInterval := 1

/-- Monthly billing interval. -/
def Monthly : BillingInterval := 2

/-- Quarterly billing interval. -/
def Quarterly : BillingInterval := 3

/-- Yearly billing interval. -/
def Yearly : BillingInterval := 4

/-- Go struct `Period`: a time period with start and end. -/
structure Period where
  StartsAt : Zeit
  EndsAt : Zeit
deriving DecidableEq, Repr

/-- The `switch interval` body of Go's `Cycles`: step the current period
start forward by one interval unit (the default case repeats the daily
step). -/
def cycleStep (current : Zeit) (interval : BillingInterval) : Zeit :=
  if interval = Daily then current.AddDays 1
  else if interval = Weekly then current.AddDays 7
  else if interval = Monthly then New (addDate current.instant 0 1 0) (some current.location)
  else if interval = Quarterly then New (addDate current.instant 0 3 0) (some current.location)
  else if interval = Yearly then New (addDate current.instant 1 0 0) (some current.location)
  else current.AddDays 1

/-- The `for i := range count` loop of Go's `Cycles`: each iteration emits
the period from `current` to its step and continues from the step. -/
def cyclesLoop (current : Zeit) (interval : BillingInterval) : Nat → List Period
  | 0 => []
  | n + 1 =>
    let next := cycleStep current interval
    { StartsAt := current, EndsAt := next } :: cyclesLoop next interval n

/-- Go `(z *Zeit).Cycles(count, interval)`: empty for `count <= 0`,
otherwise `count` contiguous periods starting at `z`. -/
def Zeit.Cycles (z : Zeit) (count : Int) (interval : BillingInterval) : List Period :=
  if count ≤ 0 then [] else cyclesLoop z interval count.toNat

/-- Go `(p *Period).Duration()`: `EndsAt.Sub(StartsAt)` (saturating). -/
def Period.Duration (p : Period) : Int := goSub p.EndsAt.instant p.StartsAt.instant

/-- Go `(p *Period).Contains(z)`: `!z.Before(p.StartsAt) && z.Before(p.EndsAt)`. -/
def Period.Contains (p : Period) (z : Zeit) : Bool :=
  !(z.Before p.StartsAt) && z.Before p.EndsAt

/-! ## Claim theorems: persistence, equality, containment -/

/-- C4: for every epoch-second integer `s` (any int64) and every zone,
reading the whole-second Unix value back from `FromDatabase s` gives `s`:
the integer-timestamp round trip is lossless. -/
theorem c4_database_roundtrip (s : Int) (loc : Option String) :
    (FromDatabase s loc).ToDatabase = s := by
  simp only [FromDatabase, New, Zeit.ToDatabase, nsPerSec]
  omega

/-- C9: for every absolute time value and every pair of zones, the two
constructed instants are `Equal`: the display zone never affects equality,
which operates on the UTC-normalized absolute instant only. -/
theorem c9_zone_invariant_equality (t : Int) (z1 z2 : Option String) :
    (New t z1).Equal (New t z2) = true := by
  simp [Zeit.Equal, New]

/-- C8: for every period `[A, B)` and instant `t`, `Contains t` holds iff
`A ≤ t < B` on absolute instants; in particular `Contains A` holds whenever
`A < B`, and `Contains B` never holds. -/
theorem c8_contains_half_open (p : Period) (z : Zeit) :
    (p.Contains z = true ↔
      p.StartsAt.instant ≤ z.instant ∧ z.instant < p.EndsAt.instant) ∧
    (p.StartsAt.instant < p.EndsAt.instant → p.Contains p.StartsAt = true) ∧
    p.Contains p.EndsAt = false := by
  refine ⟨?_, ?_, ?_⟩ <;> simp [Period.Contains, Zeit.Before]

/-- Witness for C8 at the concrete period `[0 ns, 1 day)`. -/
theorem c8_contains_half_open_witness :
    ((Period.mk (New 0 (some timeUTC)) (New nsPerDay (some timeUTC))).Contains
        (New 0 (some timeUTC)) = true) ∧
    ((Period.mk (New 0 (some timeUTC)) (New nsPerDay (some timeUTC))).Contains
        (New nsPerDay (some timeUTC)) = false) :=
  ⟨(c8_contains_half_open (Period.mk (New 0 (some timeUTC)) (New nsPerDay (some timeUTC)))
      (New 0 (some timeUTC))).2.1 (by decide),
   (c8_contains_half_open (Period.mk (New 0 (some timeUTC)) (New nsPerDay (some timeUTC)))
      (New nsPerDay (some timeUTC))).2.2⟩

/-- C3 counterexample: `Scan` succeeds on the float value `3/2` (exactly
representable in `float64`), which is not losslessly convertible to an
integer — it equals no integer — contradicting the claim that only
integers and losslessly convertible floats are accepted. -/
theorem c3_scan_not_lossless_only :
    ((New 0 (some timeUTC)).Scan (SqlSrc.sFloat64 (3 / 2))).2 = none ∧
    ¬ ∃ k : Int, (3 : Rat) / 2 = (k : Rat) := by
  refine ⟨rfl, ?_⟩
  rintro ⟨k, hk⟩
  have h2 : (k : Rat) * 2 = 3 := by rw [← hk]; norm_num
  have h3 : k * 2 = 3 := by exact_mod_cast h2
  omega

/-- C3 (amended): `Scan` succeeds exactly on a 64-bit integer input or on
any floating-point input (whose value is truncated toward zero); every
other input type and an absent/null value fails with a scan error; on
success the resulting zone defaults to UTC. -/
theorem c3_scan_accepts (z : Zeit) (src : SqlSrc) :
    ((z.Scan src).2 = none ↔
      (∃ v, src = SqlSrc.sInt64 v) ∨ (∃ v, src = SqlSrc.sFloat64 v)) ∧
    ((z.Scan src).2 = none → (z.Scan src).1.location = timeUTC) := by
  cases src <;> simp [Zeit.Scan]

/-- Witness for C3 at the concrete input `int64 5`. -/
theorem c3_scan_accepts_witness :
    ((New 0 (some timeUTC)).Scan (SqlSrc.sInt64 5)).1.location = timeUTC :=
  (c3_scan_accepts (New 0 (some timeUTC)) (SqlSrc.sInt64 5)).2 rfl

/-- C10: whenever `Scan` returns an error (nil input or an unsupported
input type), the receiver is left completely unchanged. -/
theorem c10_scan_error_unchanged (z : Zeit) (src : SqlSrc) :
    (z.Scan src).2 ≠ none → (z.Scan src).1 = z := by
  cases src <;> intro h
  · exact absurd rfl h
  · exact absurd rfl h
  · rfl
  · rfl

/-- Witness for C10 at the concrete receiver `(7 ns, Berlin)` and nil input. -/
theorem c10_scan_error_unchanged_witness :
    ((New 7 (some "Europe-Berlin")).Scan SqlSrc.sNull).1 = New 7 (some "Europe-Berlin") :=
  c10_scan_error_unchanged (New 7 (some "Europe-Berlin")) SqlSrc.sNull (by simp [Zeit.Scan])

/-! ## Claim theorems: billing cycles -/

/-- Each loop iteration of `Cycles` emits exactly one period. -/
theorem cyclesLoop_length (interval : BillingInterval) :
    ∀ (n : Nat) (current : Zeit), (cyclesLoop current interval n).length = n := by
  intro n
  induction n with
  | zero => intro c; rfl
  | succ m ih => intro c; simp [cyclesLoop, ih]

/-- A nonempty cycle sequence starts at the current anchor. -/
theorem cyclesLoop_head (interval : BillingInterval) (n : Nat) (current : Zeit) :
    (cyclesLoop current interval (n + 1)).head?.map Period.StartsAt = some current := by
  simp [cyclesLoop]

/-- Consecutive periods of the loop share their boundary instant. -/
theorem cyclesLoop_chain (interval : BillingInterval) :
    ∀ (n : Nat) (current : Zeit) (i : Nat), i + 1 < n →
      ((cyclesLoop current interval n).get? i).map Period.EndsAt =
      ((cyclesLoop current interval n).get? (i + 1)).map Period.StartsAt := by
  intro n
  induction n with
  | zero => intro c i hi; omega
  | succ m ih =>
    intro c i hi
    match i with
    | 0 =>
      have hm : 0 < m := by omega
      match m, hm with
      | k + 1, _ => simp [cyclesLoop]
    | j + 1 =>
      simp only [cyclesLoop, List.get?_cons_succ]
      exact ih (cycleStep c interval) j (by omega)

/-- C5: for every anchor, interval value and count: `count <= 0` yields the
empty sequence; a positive count yields exactly `count` periods, the first
starting at the anchor, with every period's end equal to the next period's
start (strict contiguity). -/
theorem c5_cycles_shape (z : Zeit) (count : Int) (interval : BillingInterval) :
    (count ≤ 0 → z.Cycles count interval = []) ∧
    (0 < count →
      (z.Cycles count interval).length = count.toNat ∧
      (z.Cycles count interval).head?.map Period.StartsAt = some z ∧
      ∀ i : Nat, i + 1 < count.toNat →
        ((z.Cycles count interval).get? i).map Period.EndsAt =
        ((z.Cycles count interval).get? (i + 1)).map Period.StartsAt) := by
  constructor
  · intro h
    simp [Zeit.Cycles, if_pos h]
  · intro h
    have hn : ¬ count ≤ 0 := by omega
    simp only [Zeit.Cycles, if_neg hn]
    refine ⟨cyclesLoop_length interval count.toNat z, ?_, ?_⟩
    · obtain ⟨m, hm⟩ : ∃ m, count.toNat = m + 1 := ⟨count.toNat - 1, by omega⟩
      rw [hm]
      exact cyclesLoop_head interval m z
    · intro i hi
      exact cyclesLoop_chain interval count.toNat z i hi

/-- Witness for C5: two daily cycles from the epoch. -/
theorem c5_cycles_shape_witness :
    ((New 0 (some timeUTC)).Cycles 2 Daily).length = 2 :=
  ((c5_cycles_shape (New 0 (some timeUTC)) 2 Daily).2 (by norm_num)).1

/-- C1 (recorded failing input): evaluating `Cycles(count = 2, Monthly)` at
the anchor 2024-01-31T10:00:00Z shows the first period ending at
2024-03-02T10:00:00Z — Go's `AddDate(0, 1, 0)` normalizes the nonexistent
February 31 by rolling over into March — and not at the clamped
2024-02-29T10:00:00Z that the claim (and the test comment in
`TestCycles_Monthly_EndOfMonth`) describe. -/
theorem c1_monthly_step_rolls_over :
    (((New (goDate 2024 1 31 10 0 0 0) (some timeUTC)).Cycles 2 Monthly).map
        (fun p => p.EndsAt.instant)).head? = some (goDate 2024 3 2 10 0 0 0) ∧
    goDate 2024 3 2 10 0 0 0 ≠ goDate 2024 2 29 10 0 0 0 := by
  refine ⟨by decide, by decide⟩

/-! ## Claim theorems: month span -/

/-- Written from claim C6's words, to be compared with the source
definition `Duration.Months`: order-normalize the two instants (the earlier
treated as start regardless of argument order), take
`12*(end.year - start.year) + (end.month - start.month)`, subtract one when
`end.day < start.day`, and clamp to a minimum of 0. -/
def monthsSpec (a b : Zeit) : Int :=
  let s := if b.instant < a.instant then b.instant else a.instant
  let e := if b.instant < a.instant then a.instant else b.instant
  let raw := 12 * (yearOf e - yearOf s) + (monthOf e - monthOf s)
  let raw2 := if dayOf e < dayOf s then raw - 1 else raw
  max raw2 0

/-- C6: for every pair of instants, `Months` of the span equals the
order-normalized year/month difference with the day-of-month correction
and the clamp at zero, as the claim states. -/
theorem c6_months_formula (a b : Zeit) : (a.Until b).Months = monthsSpec a b := by
  simp only [Zeit.Until, Duration.Months, Duration.ordered, monthsSpec]
  by_cases hord : b.instant < a.instant
  · simp only [if_pos hord]
    split <;> omega
  · simp only [if_neg hord]
    split <;> omega

/-! ## Claim theorems: business-day stepping -/

/-- Weekday after a day step of `AddDate`, reduced modulo 7. -/
theorem weekdayOf_addDate (t k : Int) :
    weekdayOf (addDate t 0 0 k) = (weekdayOf t + k) % 7 := by
  rw [addDate_days, weekdayOf_add_days]

/-- The weekend test after a day step, in terms of the starting weekday. -/
theorem isBusinessDay_addDate (t k : Int) :
    isBusinessDay (addDate t 0 0 k) =
      (((weekdayOf t + k) % 7) != 6 && ((weekdayOf t + k) % 7) != 0) := by
  rw [isBusinessDay, weekdayOf_addDate]

/-- Unfolding of one iteration of the inner weekend-skipping loop. -/
theorem stepToBusiness_succ (fuel : Nat) (t dir : Int) :
    stepToBusiness (fuel + 1) t dir =
      if isBusinessDay (addDate t 0 0 dir) then addDate t 0 0 dir
      else stepToBusiness fuel (addDate t 0 0 dir) dir := rfl

/-- The inner stepping of `AddBusinessDays` always lands on a Monday–Friday
day: from any weekday, at most three single-day steps in either direction
reach one, so the fuel of 7 is never exhausted. -/
theorem stepToBusiness_lands (t dir : Int) (hdir : dir = 1 ∨ dir = -1) :
    isBusinessDay (stepToBusiness 7 t dir) = true := by
  obtain ⟨r, hr, hr0, hr6⟩ : ∃ r, weekdayOf t = r ∧ 0 ≤ r ∧ r ≤ 6 :=
    ⟨weekdayOf t, rfl, (weekdayOf_range t).1, (weekdayOf_range t).2⟩
  rcases hdir with h | h <;> subst h <;> interval_cases r <;>
  · rw [show (7 : Nat) = 6 + 1 from rfl, stepToBusiness_succ,
      show (6 : Nat) = 5 + 1 from rfl, stepToBusiness_succ,
      show (5 : Nat) = 4 + 1 from rfl, stepToBusiness_succ]
    simp [isBusinessDay_addDate, weekdayOf_addDate, hr]

/-- Unfolding of one iteration of the `AddBusinessDays` counting loop. -/
theorem addBusinessDaysLoop_succ (t dir : Int) (n : Nat) :
    addBusinessDaysLoop t dir (n + 1) =
      addBusinessDaysLoop (stepToBusiness 7 t dir) dir n := rfl

/-- Every iteration of the `AddBusinessDays` loop at a positive count ends
on a Monday–Friday day. -/
theorem addBusinessDaysLoop_lands (dir : Int) (hdir : dir = 1 ∨ dir = -1) :
    ∀ (n : Nat) (t : Int), isBusinessDay (addBusinessDaysLoop t dir (n + 1)) = true := by
  intro n
  induction n with
  | zero =>
    intro t
    rw [addBusinessDaysLoop_succ]
    exact stepToBusiness_lands t dir hdir
  | succ m ih =>
    intro t
    rw [addBusinessDaysLoop_succ]
    exact ih (stepToBusiness 7 t dir)

/-- C2 counterexample: at the count `math.MinInt`, Go's `days = -days`
wraps back to `math.MinInt`, the loop runs zero times and the receiver is
returned unchanged — so starting on Saturday 1970-01-03 (day number 2),
`AddBusinessDays(math.MinInt)` returns a Saturday, contradicting the claim
that a nonzero count never lands on a weekend day. -/
theorem c2_min_int_weekend :
    ((New (2 * nsPerDay) (some timeUTC)).AddBusinessDays minInt64 =
      New (2 * nsPerDay) (some timeUTC)) ∧
    minInt64 < 0 ∧
    isBusinessDay
      (((New (2 * nsPerDay) (some timeUTC)).AddBusinessDays minInt64).instant) = false := by
  refine ⟨by decide, by decide, by decide⟩

/-- C2 (amended): for every starting instant and every nonzero count above
`math.MinInt` (positive or negative), `AddBusinessDays` never returns a
Saturday or Sunday — the loop steps one calendar day at a time in the sign
direction and only a Monday–Friday step can be the final one; a zero count
crosses no days; and at the single remaining count `math.MinInt` the
wrapping negation leaves the loop bound negative, so no days are crossed
and the receiver is returned unchanged. -/
theorem c2_add_business_days_int64 (z : Zeit) (n : Int) :
    (minInt64 < n → n ≠ 0 → isBusinessDay (z.AddBusinessDays n).instant = true) ∧
    z.AddBusinessDays 0 = z ∧
    z.AddBusinessDays minInt64 = z := by
  refine ⟨?_, rfl, rfl⟩
  intro hmin hn
  simp only [Zeit.AddBusinessDays, New, Option.getD]
  have hpos : 0 < (if n < 0 then int64Wrap (-n) else n) := by
    by_cases h : n < 0
    · simp only [if_pos h, int64Wrap, minInt64] at *
      omega
    · simp only [if_neg h]
      omega
  obtain ⟨m, hm⟩ : ∃ m : Nat, (if n < 0 then int64Wrap (-n) else n).toNat = m + 1 :=
    ⟨(if n < 0 then int64Wrap (-n) else n).toNat - 1, by omega⟩
  rw [hm]
  exact addBusinessDaysLoop_lands (if n < 0 then -1 else 1)
    (by by_cases h : n < 0 <;> simp [h]) m z.instant

/-- Witness for C2: one business day from the epoch (1970-01-01, a
Thursday) and the zero case. -/
theorem c2_add_business_days_int64_witness :
    isBusinessDay ((New 0 (some timeUTC)).AddBusinessDays 1).instant = true ∧
    (New 0 (some timeUTC)).AddBusinessDays 0 = New 0 (some timeUTC) :=
  ⟨(c2_add_business_days_int64 (New 0 (some timeUTC)) 1).1 (by decide) (by decide),
   (c2_add_business_days_int64 (New 0 (some timeUTC)) 0).2.1⟩

/-! ## Claim theorems: business-day counting -/

/-- Monday–Friday test on a day number (1970-01-01, day 0, was a Thursday;
Sunday = 0 and Saturday = 6 in Go's weekday numbering). -/
def isBusinessDayNum (dy : Int) : Bool := (dy + 4) % 7 != 6 && (dy + 4) % 7 != 0

/-- Written from claim C7's words, to be compared with the source
definition `Duration.BusinessDays`: the number of Monday–Friday calendar
dates in the half-open day-number interval `[dy, dy + n)`. -/
def businessCount (dy : Int) : Nat → Int
  | 0 => 0
  | n + 1 => (if isBusinessDayNum dy then 1 else 0) + businessCount (dy + 1) n

/-- Written from claim C7's words, to be compared with the source
definition `Duration.BusinessDays`: order-normalize the two instants, take
their midnight UTC dates (display zones unused), and count the
Monday–Friday dates in the half-open date interval, which is empty unless
the start date is strictly before the end date. -/
def businessDaysSpec (a b : Zeit) : Int :=
  let s := if b.instant < a.instant then b.instant else a.instant
  let e := if b.instant < a.instant then a.instant else b.instant
  let sDay := daysFromCivil (yearOf s) (monthOf s) (dayOf s)
  let eDay := daysFromCivil (yearOf e) (monthOf e) (dayOf e)
  if sDay < eDay then businessCount sDay (eDay - sDay).toNat else 0

theorem businessCount_zero (dy : Int) : businessCount dy 0 = 0 := rfl

theorem businessCount_succ (dy : Int) (n : Nat) :
    businessCount dy (n + 1) =
      (if isBusinessDayNum dy then 1 else 0) + businessCount (dy + 1) n := rfl

theorem businessRemainder_zero (startDate fullWeeks : Int) :
    businessRemainder startDate fullWeeks 0 = 0 := rfl

theorem businessRemainder_succ (startDate fullWeeks : Int) (i : Nat) :
    businessRemainder startDate fullWeeks (i + 1) =
      businessRemainder startDate fullWeeks i +
      (if isBusinessDay (addDate startDate 0 0 (fullWeeks * 7 + i)) then 1 else 0) := rfl

/-- Weekend test of a midnight instant, on its day number. -/
theorem isBusinessDay_midnight (D : Int) :
    isBusinessDay (D * nsPerDay) = isBusinessDayNum D := by
  have h : dayNumber (D * nsPerDay) = D := by
    simp only [dayNumber, nsPerDay]
    omega
  simp only [isBusinessDay, isBusinessDayNum, weekdayOf, h]

/-- Day stepping from a midnight instant, on day numbers. -/
theorem isBusinessDay_addDate_midnight (D j : Int) :
    isBusinessDay (addDate (D * nsPerDay) 0 0 j) = isBusinessDayNum (D + j) := by
  rw [addDate_days]
  have h : D * nsPerDay + j * nsPerDay = (D + j) * nsPerDay := by ring
  rw [h, isBusinessDay_midnight]

/-- Rebuilding midnight of an instant's civil date with `time.Date`. -/
theorem goDate_midnight (t : Int) :
    goDate (yearOf t) (monthOf t) (dayOf t) 0 0 0 0 = dayNumber t * nsPerDay := by
  have hm := monthOf_range t
  have hrt := daysFromCivil_civilOf t
  simp only [goDate]
  have h2 : (monthOf t - 1) / 12 = 0 := by omega
  have h3 : (monthOf t - 1) % 12 + 1 = monthOf t := by omega
  have h4 : yearOf t + 0 = yearOf t := by ring
  rw [h2, h3, h4, hrt]
  ring

/-- Counting one more day appends the indicator of the last day. -/
theorem businessCount_snoc (n : Nat) : ∀ dy : Int,
    businessCount dy (n + 1) =
      businessCount dy n + (if isBusinessDayNum (dy + n) then 1 else 0) := by
  induction n with
  | zero =>
    intro dy
    rw [businessCount_succ, businessCount_zero, businessCount_zero]
    simp
  | succ m ih =>
    intro dy
    rw [businessCount_succ, ih (dy + 1), businessCount_succ]
    have hc : dy + 1 + (m : Int) = dy + ((m + 1 : Nat) : Int) := by push_cast; ring
    rw [hc]
    ring

/-- The count over a concatenated day range splits at the junction. -/
theorem businessCount_add (x y : Nat) : ∀ dy : Int,
    businessCount dy (x + y) = businessCount dy x + businessCount (dy + x) y := by
  induction x with
  | zero =>
    intro dy
    simp [businessCount_zero]
  | succ m ih =>
    intro dy
    have h1 : m + 1 + y = (m + y) + 1 := by omega
    rw [h1, businessCount_succ, businessCount_succ, ih (dy + 1)]
    have hc : dy + 1 + (m : Int) = dy + ((m + 1 : Nat) : Int) := by push_cast; ring
    rw [hc]
    ring

/-- Any 7 consecutive calendar dates contain exactly 5 Monday–Friday
dates. -/
theorem weekIndicators (dy : Int) :
    (if isBusinessDayNum dy then (1 : Int) else 0) +
    (if isBusinessDayNum (dy + 1) then (1 : Int) else 0) +
    (if isBusinessDayNum (dy + 1 + 1) then (1 : Int) else 0) +
    (if isBusinessDayNum (dy + 1 + 1 + 1) then (1 : Int) else 0) +
    (if isBusinessDayNum (dy + 1 + 1 + 1 + 1) then (1 : Int) else 0) +
    (if isBusinessDayNum (dy + 1 + 1 + 1 + 1 + 1) then (1 : Int) else 0) +
    (if isBusinessDayNum (dy + 1 + 1 + 1 + 1 + 1 + 1) then (1 : Int) else 0) = 5 := by
  simp only [isBusinessDayNum]
  obtain ⟨r, hr, hr0, hr7⟩ : ∃ r, (dy + 4) % 7 = r ∧ 0 ≤ r ∧ r < 7 :=
    ⟨(dy + 4) % 7, rfl, by omega, by omega⟩
  have e1 : (dy + 1 + 4) % 7 = (r + 1) % 7 := by omega
  have e2 : (dy + 1 + 1 + 4) % 7 = (r + 2) % 7 := by omega
  have e3 : (dy + 1 + 1 + 1 + 4) % 7 = (r + 3) % 7 := by omega
  have e4 : (dy + 1 + 1 + 1 + 1 + 4) % 7 = (r + 4) % 7 := by omega
  have e5 : (dy + 1 + 1 + 1 + 1 + 1 + 4) % 7 = (r + 5) % 7 := by omega
  have e6 : (dy + 1 + 1 + 1 + 1 + 1 + 1 + 4) % 7 = (r + 6) % 7 := by omega
  simp only [hr, e1, e2, e3, e4, e5, e6]
  interval_cases r <;> decide

/-- Full weeks contribute exactly 5 business days each. -/
theorem businessCount_weeks (q : Nat) : ∀ dy : Int,
    businessCount dy (7 * q) = 5 * q := by
  induction q with
  | zero =>
    intro dy
    simp [businessCount_zero]
  | succ m ih =>
    intro dy
    rw [show 7 * (m + 1) = 7 * m + 6 + 1 from by omega, businessCount_succ,
      show 7 * m + 6 = 7 * m + 5 + 1 from by omega, businessCount_succ,
      show 7 * m + 5 = 7 * m + 4 + 1 from by omega, businessCount_succ,
      show 7 * m + 4 = 7 * m + 3 + 1 from by omega, businessCount_succ,
      show 7 * m + 3 = 7 * m + 2 + 1 from by omega, businessCount_succ,
      show 7 * m + 2 = 7 * m + 1 + 1 from by omega, businessCount_succ,
      businessCount_succ, ih (dy + 1 + 1 + 1 + 1 + 1 + 1 + 1)]
    have H := weekIndicators dy
    push_cast
    omega

/-- The remainder loop of `BusinessDays` counts the business days of the
day range that starts after the full weeks. -/
theorem businessRemainder_eq (D q : Int) : ∀ n : Nat,
    businessRemainder (D * nsPerDay) q n = businessCount (D + q * 7) n := by
  intro n
  induction n with
  | zero => rw [businessRemainder_zero, businessCount_zero]
  | succ m ih =>
    rw [businessRemainder_succ, ih, businessCount_snoc, isBusinessDay_addDate_midnight]
    have hc : D + (q * 7 + (m : Int)) = D + q * 7 + (m : Int) := by ring
    rw [hc]

/-- The full-weeks-times-5 plus remainder computation of `BusinessDays`
equals the plain count over a half-open day range of any positive whole-day
length `T`. -/
theorem businessDays_core (S T : Int) (hT : 0 < T) :
    T / 7 * 5 + businessRemainder (S * nsPerDay) (T / 7) ((T % 7).toNat) =
    businessCount S T.toNat := by
  rw [businessRemainder_eq S (T / 7) ((T % 7).toNat)]
  have hq0 : 0 ≤ T / 7 := by omega
  have hsplit : T.toNat = 7 * (T / 7).toNat + (T % 7).toNat := by omega
  rw [hsplit, businessCount_add (7 * (T / 7).toNat) ((T % 7).toNat) S,
    businessCount_weeks (T / 7).toNat S]
  have hc : S + ((7 * (T / 7).toNat : Nat) : Int) = S + T / 7 * 7 := by
    push_cast
    omega
  rw [hc]
  omega

/-- C7 counterexample: across a 210000-day span (about 575 years,
1970-01-01 to midnight of day 210000) `Sub` saturates at `maxDuration`, so
the program counts business days over only `⌊maxDuration / nsPerDay⌋ =
106751` days and returns 76251, while the Monday–Friday count of the full
half-open interval stated by the claim is `5 * 30000 = 150000`. -/
theorem c7_saturation_undercount :
    ((New 0 (some timeUTC)).Until (New (210000 * nsPerDay) (some timeUTC))).BusinessDays
      = 76251 ∧
    businessDaysSpec (New 0 (some timeUTC)) (New (210000 * nsPerDay) (some timeUTC))
      = 150000 ∧
    (76251 : Int) ≠ 150000 := by
  refine ⟨by decide, ?_, by decide⟩
  have h0 : (New 0 (some timeUTC)).instant = 0 := rfl
  have h1 : (New (210000 * nsPerDay) (some timeUTC)).instant = 210000 * nsPerDay := rfl
  simp only [businessDaysSpec, h0, h1]
  have hc : ¬ (210000 * nsPerDay < 0) := by decide
  simp only [if_neg hc]
  rw [daysFromCivil_civilOf, daysFromCivil_civilOf]
  have hs : dayNumber (0 : Int) = 0 := by decide
  have he : dayNumber (210000 * nsPerDay) = 210000 := by decide
  rw [hs, he]
  rw [if_pos (by decide : (0 : Int) < 210000)]
  have hn : ((210000 : Int) - 0).toNat = 7 * 30000 := by omega
  rw [hn, businessCount_weeks 30000 0]
  norm_num

/-- Written from the amended claim C7, to be compared with the source
definition `Duration.BusinessDays`: order-normalize the two instants, take
their midnight UTC dates (display zones unused), and count the
Monday–Friday dates in the half-open date interval with its whole-day
length truncated at `⌊maxDuration / nsPerDay⌋ = 106751` days (the
saturation bound of Go's `Sub`); empty unless the start date is strictly
before the end date. -/
def businessDaysSpecSat (a b : Zeit) : Int :=
  let s := if b.instant < a.instant then b.instant else a.instant
  let e := if b.instant < a.instant then a.instant else b.instant
  let sDay := daysFromCivil (yearOf s) (monthOf s) (dayOf s)
  let eDay := daysFromCivil (yearOf e) (monthOf e) (dayOf e)
  if sDay < eDay then
    businessCount sDay (min (eDay - sDay) (maxDuration / nsPerDay)).toNat
  else 0

/-- C7 (amended): for every pair of instants, `BusinessDays` equals the
count of Monday–Friday calendar dates in the half-open interval between
the two midnight-UTC-normalized dates (order-normalized; display zones
unused) with the counted whole-day span truncated at the saturation bound
of Go's `Sub` (`⌊maxDuration / nsPerDay⌋ = 106751` days, about 292 years):
the full-weeks-times-5 plus per-day remainder computation yields exactly
that truncated count — the untruncated count whenever the span is below
the bound — and the result is 0 whenever the normalized start is not
strictly before the normalized end. -/
theorem c7_business_days_saturated (a b : Zeit) :
    (a.Until b).BusinessDays = businessDaysSpecSat a b := by
  simp only [Zeit.Until, Duration.BusinessDays, Duration.ordered, businessDaysSpecSat]
  by_cases hord : b.instant < a.instant
  · simp only [if_pos hord]
    rw [goDate_midnight, goDate_midnight, daysFromCivil_civilOf, daysFromCivil_civilOf]
    by_cases hlt : dayNumber b.instant < dayNumber a.instant
    · rw [if_pos ((mul_lt_mul_right nsPerDay_pos).mpr hlt), if_pos hlt]
      have htot : goSub (dayNumber a.instant * nsPerDay) (dayNumber b.instant * nsPerDay)
            / nsPerDay
          = min (dayNumber a.instant - dayNumber b.instant) (maxDuration / nsPerDay) := by
        simp only [goSub, maxDuration, minDuration, nsPerDay]
        omega
      rw [htot]
      exact businessDays_core (dayNumber b.instant)
        (min (dayNumber a.instant - dayNumber b.instant) (maxDuration / nsPerDay))
        (by simp only [maxDuration, nsPerDay]; omega)
    · rw [if_neg (fun hcon => hlt ((mul_lt_mul_right nsPerDay_pos).mp hcon)), if_neg hlt]
  · simp only [if_neg hord]
    rw [goDate_midnight, goDate_midnight, daysFromCivil_civilOf, daysFromCivil_civilOf]
    by_cases hlt : dayNumber a.instant < dayNumber b.instant
    · rw [if_pos ((mul_lt_mul_right nsPerDay_pos).mpr hlt), if_pos hlt]
      have htot : goSub (dayNumber b.instant * nsPerDay) (dayNumber a.instant * nsPerDay)
            / nsPerDay
          = min (dayNumber b.instant - dayNumber a.instant) (maxDuration / nsPerDay) := by
        simp only [goSub, maxDuration, minDuration, nsPerDay]
        omega
      rw [htot]
      exact businessDays_core (dayNumber a.instant)
        (min (dayNumber b.instant - dayNumber a.instant) (maxDuration / nsPerDay))
        (by simp only [maxDuration, nsPerDay]; omega)
    · rw [if_neg (fun hcon => hlt ((mul_lt_mul_right nsPerDay_pos).mp hcon)), if_neg hlt]
